import Mathlib

/-!
Verification of the voice-call coordination core.

Part 1 embeds the streaming TTS pipeline (`StreamingTtsPipeline`): a state
machine over the pipeline's mutable fields, with transport/media effects made
explicit as an output trace.  Part 2 embeds the call-manager answered hook
(`maybeSpeakInitialMessageOnAnswered`).  Part 3 models the event processor
from the specification (its implementation file is not part of the sources
verified here).
-/

/-- Chunk size for sending audio to Twilio (640 bytes = 80ms at 8kHz ulaw). -/
def CHUNK_SIZE : Nat := 640

/-- Observable effects of the pipeline: messages sent on the synthesis
transport (`bos`, `text`, `eos`), calls on the media collaborator
(`audio`, `mark`, `clearAudio`), closing the transport (`closeWs`), and the
completion promise actually resolving (`resolved`). -/
inductive Eff where
  | bos
  | text (t : String)
  | eos
  | audio (bytes : List Nat)
  | mark
  | clearAudio
  | closeWs
  | resolved
deriving DecidableEq

/-- A parsed message from the synthesis transport: optional base64-decoded
audio bytes and the `isFinal` flag. -/
structure TtsMsg where
  audio : Option (List Nat)
  isFinal : Bool
deriving DecidableEq

/-- External stimuli of the pipeline: transport events (`opened`, `msg`,
`err`, `close`) and public method calls (`feed`, `flushEv`, `abortEv`). -/
inductive PEvent where
  | opened
  | msg (m : TtsMsg)
  | err
  | close
  | feed (t : String)
  | flushEv
  | abortEv
deriving DecidableEq

/-- The pipeline's mutable fields.  `wsPresent` models `this.ws !== null`,
`wsOpen` models `this.ws.readyState === OPEN`, `deferredEos` records that
`flush()` registered an extra `open` listener that will send EOS, and
`completionResolved` is the state of the completion promise. -/
structure PState where
  aborted : Bool
  flushed : Bool
  wsReady : Bool
  wsPresent : Bool
  wsOpen : Bool
  deferredEos : Bool
  pendingChunks : List String
  audioLeftover : List Nat
  completionResolved : Bool
deriving DecidableEq

/-- State right after the constructor ran: socket allocated but not open. -/
def initState : PState :=
  { aborted := false, flushed := false, wsReady := false, wsPresent := true
    wsOpen := false, deferredEos := false, pendingChunks := []
    audioLeftover := [], completionResolved := false }

/-- Model of `sendText`: sends the chunk only when the socket exists and is OPEN. -/
def sendTextEffs (s : PState) (t : String) : List Eff :=
  if s.wsPresent && s.wsOpen then [Eff.text t] else []

/-- Model of `sendEos`: sends the EOS message only when the socket exists and is OPEN. -/
def sendEosEffs (s : PState) : List Eff :=
  if s.wsPresent && s.wsOpen then [Eff.eos] else []

/-- Model of `completionResolve?.()`: the underlying promise transitions to resolved
at most once, so the `resolved` effect is emitted only on the first call. -/
def resolveStep (s : PState) : PState × List Eff :=
  ({ s with completionResolved := true },
   if s.completionResolved then [] else [Eff.resolved])

/-- Model of `sendRemainingAudio`: flush the leftover partial frame, if any. -/
def sendRemainingAudio (s : PState) : PState × List Eff :=
  if 0 < s.audioLeftover.length then
    ({ s with audioLeftover := [] }, [Eff.audio s.audioLeftover])
  else (s, [])

/-- The `while (buf.length >= CHUNK_SIZE)` loop of `sendAudioChunks`,
written with an explicit iteration bound; each iteration removes
`CHUNK_SIZE ≥ 1` bytes, so `buf.length` iterations always suffice. -/
def chunkLoopF : Nat → List Nat → List (List Nat) × List Nat
  | 0, buf => ([], buf)
  | fuel + 1, buf =>
    if CHUNK_SIZE ≤ buf.length then
      let r := chunkLoopF fuel (buf.drop CHUNK_SIZE)
      (buf.take CHUNK_SIZE :: r.1, r.2)
    else ([], buf)

/-- Model of `sendAudioChunks` on a buffer: emitted frames and the new leftover. -/
def chunkAll (buf : List Nat) : List (List Nat) × List Nat :=
  chunkLoopF buf.length buf

/-- One transition of the pipeline, returning the new state and the list of
effects in emission order; translated handler by handler from the source. -/
def step (s : PState) : PEvent → PState × List Eff
  | .opened =>
    if s.aborted then
      ({ s with wsOpen := false }, if s.wsPresent then [Eff.closeWs] else [])
    else
      ({ s with wsOpen := true, wsReady := true, pendingChunks := [] },
       Eff.bos :: s.pendingChunks.map Eff.text
         ++ (if s.deferredEos then [Eff.eos] else []))
  | .msg m =>
    if s.aborted then (s, [])
    else
      let r := match m.audio with
        | some a => chunkAll (s.audioLeftover ++ a)
        | none => ([], s.audioLeftover)
      let s1 := { s with audioLeftover := r.2 }
      if m.isFinal then
        let r2 := sendRemainingAudio s1
        let r3 := resolveStep r2.1
        (r3.1, r.1.map Eff.audio ++ r2.2 ++ [Eff.mark] ++ r3.2)
      else (s1, r.1.map Eff.audio)
  | .err => resolveStep s
  | .close =>
    let r := sendRemainingAudio s
    let r2 := resolveStep r.1
    (r2.1, r.2 ++ r2.2)
  | .feed t =>
    if s.aborted then (s, [])
    else if s.wsReady then (s, sendTextEffs s t)
    else ({ s with pendingChunks := s.pendingChunks ++ [t] }, [])
  | .flushEv =>
    if s.aborted || s.flushed then (s, [])
    else
      let s1 := { s with flushed := true }
      if s1.wsReady then (s1, sendEosEffs s1)
      else if s1.wsPresent then ({ s1 with deferredEos := true }, [])
      else (s1, [])
  | .abortEv =>
    if s.aborted then (s, [])
    else
      let closeE := if s.wsPresent && s.wsOpen then [Eff.closeWs] else []
      let s1 := { s with aborted := true, pendingChunks := []
                         wsPresent := false, wsOpen := false }
      let r := resolveStep s1
      (r.1, closeE ++ [Eff.clearAudio] ++ r.2)

/-- Run a sequence of events, concatenating the emitted effects. -/
def run (s : PState) : List PEvent → PState × List Eff
  | [] => (s, [])
  | e :: evs =>
    let r := step s e
    let r2 := run r.1 evs
    (r2.1, r.2 ++ r2.2)

/-- A transport message carrying only audio bytes. -/
def msgAudio (p : List Nat) : PEvent := PEvent.msg ⟨some p, false⟩

/-- The transport's final-signal message. -/
def finalMsg : PEvent := PEvent.msg ⟨none, true⟩

/-- The audio frames among a list of effects, in order. -/
def audioFrames (l : List Eff) : List (List Nat) :=
  l.filterMap fun e => match e with | Eff.audio b => some b | _ => none

/-- Audio frames produced by a fresh pipeline on an event sequence. -/
def framesOf (evs : List PEvent) : List (List Nat) :=
  audioFrames (run initState evs).2

/-- Number of EOS messages among the effects. -/
def eosCount (l : List Eff) : Nat :=
  l.countP fun e => match e with | Eff.eos => true | _ => false

/-- Number of `opened` events in a stimulus sequence. -/
def openCount (l : List PEvent) : Nat :=
  l.countP fun e => match e with | PEvent.opened => true | _ => false

/-- Number of actual completion-promise resolutions among the effects. -/
def resolvedCount (l : List Eff) : Nat :=
  l.countP fun e => match e with | Eff.resolved => true | _ => false

/-- Folding `sendAudioChunks` over a sequence of received audio payloads:
all emitted frames and the final leftover. -/
def processPayloads : List Nat → List (List Nat) → List (List Nat) × List Nat
  | leftover, [] => ([], leftover)
  | leftover, p :: ps =>
    let r := chunkAll (leftover ++ p)
    let r2 := processPayloads r.2 ps
    (r.1 ++ r2.1, r2.2)

/-! ### Chunking lemmas -/

theorem chunkLoopF_flatten (fuel : Nat) :
    ∀ buf : List Nat,
      (chunkLoopF fuel buf).1.flatten ++ (chunkLoopF fuel buf).2 = buf := by
  induction fuel with
  | zero => intro buf; simp [chunkLoopF]
  | succ n ih =>
    intro buf
    by_cases h : CHUNK_SIZE ≤ buf.length
    · simp only [chunkLoopF, if_pos h, List.flatten_cons, List.append_assoc]
      rw [ih, List.take_append_drop]
    · simp [chunkLoopF, h]

theorem chunkLoopF_frames (fuel : Nat) :
    ∀ buf f, f ∈ (chunkLoopF fuel buf).1 → f.length = CHUNK_SIZE := by
  induction fuel with
  | zero => intro buf f hf; simp [chunkLoopF] at hf
  | succ n ih =>
    intro buf f hf
    by_cases h : CHUNK_SIZE ≤ buf.length
    · simp only [chunkLoopF, if_pos h, List.mem_cons] at hf
      rcases hf with hf | hf
      · subst hf; simpa [List.length_take] using Nat.min_eq_left h
      · exact ih _ _ hf
    · simp [chunkLoopF, h] at hf

theorem chunkLoopF_rest (fuel : Nat) :
    ∀ buf : List Nat, buf.length ≤ fuel →
      (chunkLoopF fuel buf).2.length < CHUNK_SIZE := by
  induction fuel with
  | zero =>
    intro buf hb
    have : buf.length = 0 := Nat.le_zero.mp hb
    simp [chunkLoopF, this]
    decide
  | succ n ih =>
    intro buf hb
    by_cases h : CHUNK_SIZE ≤ buf.length
    · simp only [chunkLoopF, if_pos h]
      apply ih
      simp only [List.length_drop]
      have : 0 < CHUNK_SIZE := by decide
      omega
    · simp [chunkLoopF, h]
      omega

theorem chunkAll_flatten (buf : List Nat) :
    (chunkAll buf).1.flatten ++ (chunkAll buf).2 = buf :=
  chunkLoopF_flatten _ buf

theorem chunkAll_frames (buf : List Nat) :
    ∀ f ∈ (chunkAll buf).1, f.length = CHUNK_SIZE :=
  fun f hf => chunkLoopF_frames _ buf f hf

theorem chunkAll_rest (buf : List Nat) :
    (chunkAll buf).2.length < CHUNK_SIZE :=
  chunkLoopF_rest _ buf (Nat.le_refl _)

theorem processPayloads_flatten (ps : List (List Nat)) :
    ∀ leftover,
      (processPayloads leftover ps).1.flatten ++ (processPayloads leftover ps).2
        = leftover ++ ps.flatten := by
  induction ps with
  | nil => intro leftover; simp [processPayloads]
  | cons p ps ih =>
    intro leftover
    simp only [processPayloads, List.flatten_append, List.flatten_cons,
      List.append_assoc]
    rw [ih]
    rw [← List.append_assoc, chunkAll_flatten, List.append_assoc]

theorem processPayloads_frames (ps : List (List Nat)) :
    ∀ leftover f, f ∈ (processPayloads leftover ps).1 →
      f.length = CHUNK_SIZE := by
  induction ps with
  | nil => intro leftover f hf; simp [processPayloads] at hf
  | cons p ps ih =>
    intro leftover f hf
    simp only [processPayloads, List.mem_append] at hf
    rcases hf with hf | hf
    · exact chunkAll_frames _ f hf
    · exact ih _ f hf

theorem processPayloads_rest (ps : List (List Nat)) :
    ∀ leftover : List Nat, leftover.length < CHUNK_SIZE →
      (processPayloads leftover ps).2.length < CHUNK_SIZE := by
  induction ps with
  | nil => intro leftover h; simpa [processPayloads] using h
  | cons p ps ih =>
    intro leftover _
    simp only [processPayloads]
    exact ih _ (chunkAll_rest _)

/-! ### Running the pipeline over audio messages -/

theorem run_msgAudio (ps : List (List Nat)) :
    ∀ s : PState, s.aborted = false →
      run s (ps.map msgAudio)
        = ({ s with audioLeftover := (processPayloads s.audioLeftover ps).2 },
           ((processPayloads s.audioLeftover ps).1).map Eff.audio) := by
  induction ps with
  | nil => intro s _; simp [run, processPayloads]
  | cons p ps ih =>
    intro s hs
    simp only [List.map_cons, run, step, msgAudio, hs, Bool.false_eq_true,
      if_false, processPayloads]
    rw [ih _ (by simp [hs])]
    simp [List.map_append]

theorem close_flushes (s : PState) :
    audioFrames (step s PEvent.close).2
      = if s.audioLeftover.length = 0 then [] else [s.audioLeftover] := by
  by_cases h : 0 < s.audioLeftover.length
  · simp [step, sendRemainingAudio, resolveStep, h, audioFrames, Nat.pos_iff_ne_zero.mp h]
  · simp at h
    simp [step, sendRemainingAudio, resolveStep, h, audioFrames]

theorem finalMsg_flushes (s : PState) (hs : s.aborted = false) :
    audioFrames (step s finalMsg).2
      = if s.audioLeftover.length = 0 then [] else [s.audioLeftover] := by
  by_cases h : 0 < s.audioLeftover.length
  · simp [step, finalMsg, sendRemainingAudio, resolveStep, h, hs, audioFrames,
      Nat.pos_iff_ne_zero.mp h]
  · simp at h
    simp [step, finalMsg, sendRemainingAudio, resolveStep, h, hs, audioFrames]

theorem run_append (l1 l2 : List PEvent) : ∀ s,
    run s (l1 ++ l2)
      = ((run (run s l1).1 l2).1, (run s l1).2 ++ (run (run s l1).1 l2).2) := by
  induction l1 with
  | nil => intro s; simp [run]
  | cons e l1 ih => intro s; simp [run, ih, List.append_assoc]

theorem audioFrames_append (a b : List Eff) :
    audioFrames (a ++ b) = audioFrames a ++ audioFrames b := by
  simp [audioFrames]

theorem audioFrames_map_audio (l : List (List Nat)) :
    audioFrames (l.map Eff.audio) = l := by
  simp [audioFrames, List.filterMap_map]
  exact List.filterMap_some l

theorem framesOf_terminal (ps : List (List Nat)) (term : PEvent)
    (hterm : term = PEvent.close ∨ term = finalMsg) :
    framesOf (ps.map msgAudio ++ [term])
      = (processPayloads [] ps).1
          ++ (if (processPayloads [] ps).2.length = 0 then []
              else [(processPayloads [] ps).2]) := by
  have hrun : run initState (ps.map msgAudio)
      = ({ initState with audioLeftover := (processPayloads [] ps).2 },
         ((processPayloads [] ps).1).map Eff.audio) :=
    run_msgAudio ps initState rfl
  unfold framesOf
  rw [run_append, hrun, audioFrames_append, audioFrames_map_audio]
  congr 1
  rcases hterm with h | h <;> subst h
  · simp only [run, List.append_nil]
    rw [close_flushes]
  · simp only [run, List.append_nil]
    rw [finalMsg_flushes _ rfl]

theorem framesSpec (ps F : List (List Nat))
    (hF : F = (processPayloads [] ps).1
        ++ (if (processPayloads [] ps).2.length = 0 then []
            else [(processPayloads [] ps).2])) :
    F.flatten = ps.flatten
      ∧ (∀ f ∈ F.dropLast, f.length = CHUNK_SIZE)
      ∧ (∀ f ∈ F, f.length ≤ CHUNK_SIZE) := by
  have hflat := processPayloads_flatten ps []
  have hframes := processPayloads_frames ps ([] : List Nat)
  have hrest := processPayloads_rest ps [] (by simp; decide)
  by_cases hr : (processPayloads [] ps).2.length = 0
  · have hnil : (processPayloads [] ps).2 = [] := List.length_eq_zero.mp hr
    rw [hF, if_pos hr, List.append_nil]
    refine ⟨?_, ?_, ?_⟩
    · have := hflat
      rw [hnil, List.append_nil] at this
      simpa using this
    · intro f hf
      exact hframes f (List.mem_of_mem_dropLast hf)
    · intro f hf
      exact Nat.le_of_eq (hframes f hf)
  · rw [hF, if_neg hr]
    refine ⟨?_, ?_, ?_⟩
    · rw [List.flatten_append]
      simpa using hflat
    · intro f hf
      rw [List.dropLast_concat] at hf
      exact hframes f hf
    · intro f hf
      rcases List.mem_append.mp hf with hf | hf
      · exact Nat.le_of_eq (hframes f hf)
      · simp at hf
        subst hf
        exact Nat.le_of_lt hrest

/-- C1: for every sequence of audio payloads received by a non-aborted relay
instance and terminated by the transport's final-signal or close, the frames
passed to the media collaborator's `sendAudio`, concatenated in order, equal
the concatenation of all received audio bytes; every frame except possibly
the last has length exactly `CHUNK_SIZE = 640`, and the last (the flushed
partial frame) never exceeds it. -/
theorem audio_reframing_exact (ps : List (List Nat)) :
    ((framesOf (ps.map msgAudio ++ [PEvent.close])).flatten = ps.flatten
      ∧ (∀ f ∈ (framesOf (ps.map msgAudio ++ [PEvent.close])).dropLast,
           f.length = CHUNK_SIZE)
      ∧ (∀ f ∈ framesOf (ps.map msgAudio ++ [PEvent.close]),
           f.length ≤ CHUNK_SIZE))
    ∧ ((framesOf (ps.map msgAudio ++ [finalMsg])).flatten = ps.flatten
      ∧ (∀ f ∈ (framesOf (ps.map msgAudio ++ [finalMsg])).dropLast,
           f.length = CHUNK_SIZE)
      ∧ (∀ f ∈ framesOf (ps.map msgAudio ++ [finalMsg]),
           f.length ≤ CHUNK_SIZE)) :=
  ⟨framesSpec ps _ (framesOf_terminal ps PEvent.close (Or.inl rfl)),
   framesSpec ps _ (framesOf_terminal ps finalMsg (Or.inr rfl))⟩

/-- Witness for C1 at a concrete three-byte payload: the single delivered
frame is the flushed partial frame and respects the size bound. -/
theorem audio_reframing_exact_witness :
    (framesOf ([[1, 2, 3]].map msgAudio ++ [PEvent.close])).flatten
        = ([[1, 2, 3]] : List (List Nat)).flatten
      ∧ ([1, 2, 3] : List Nat).length ≤ CHUNK_SIZE :=
  ⟨(audio_reframing_exact [[1, 2, 3]]).1.1,
   (audio_reframing_exact [[1, 2, 3]]).1.2.2 [1, 2, 3] (by decide)⟩

/-! ### Abort, feed and flush behaviour -/

theorem step_abortEv_aborted (u : PState) (hu : u.aborted = true) :
    step u PEvent.abortEv = (u, []) := by
  simp [step, hu]

theorem step_feed_aborted (u : PState) (t : String) (hu : u.aborted = true) :
    step u (PEvent.feed t) = (u, []) := by
  simp [step, hu]

theorem step_flush_aborted (u : PState) (hu : u.aborted = true) :
    step u PEvent.flushEv = (u, []) := by
  simp [step, hu]

theorem abort_result_aborted (s : PState) :
    (step s PEvent.abortEv).1.aborted = true := by
  by_cases h : s.aborted
  · simp [step, h]
  · simp only [Bool.not_eq_true] at h
    simp [step, h, resolveStep]

/-- C4: `abort()` is idempotent; a single call marks the instance aborted,
clears the pending text buffer, closes the transport exactly when it is
open, asks the media collaborator to clear queued audio, and resolves the
completion promise; afterwards `feedTokens` and `flush` are no-ops. -/
theorem abort_idempotent_and_effects (s : PState) (t : String) :
    (s.aborted = false →
        (step s PEvent.abortEv).1
            = { s with aborted := true, pendingChunks := []
                       wsPresent := false, wsOpen := false
                       completionResolved := true }
          ∧ (step s PEvent.abortEv).2
            = (if s.wsPresent && s.wsOpen then [Eff.closeWs] else [])
                ++ [Eff.clearAudio]
                ++ (if s.completionResolved then [] else [Eff.resolved]))
    ∧ step (step s PEvent.abortEv).1 PEvent.abortEv
        = ((step s PEvent.abortEv).1, [])
    ∧ step (step s PEvent.abortEv).1 (PEvent.feed t)
        = ((step s PEvent.abortEv).1, [])
    ∧ step (step s PEvent.abortEv).1 PEvent.flushEv
        = ((step s PEvent.abortEv).1, []) := by
  refine ⟨?_, ?_, ?_, ?_⟩
  · intro h
    constructor <;> simp [step, h, resolveStep]
  · exact step_abortEv_aborted _ (abort_result_aborted s)
  · exact step_feed_aborted _ t (abort_result_aborted s)
  · exact step_flush_aborted _ (abort_result_aborted s)

/-- Witness for C4 at the freshly constructed pipeline state. -/
theorem abort_idempotent_and_effects_witness :
    (step initState PEvent.abortEv).2 = [Eff.clearAudio, Eff.resolved] := by
  have h := ((abort_idempotent_and_effects initState "x").1 rfl).2
  rw [h]
  decide

theorem run_feeds (ts : List String) : ∀ s : PState,
    s.aborted = false → s.wsReady = false →
      run s (ts.map PEvent.feed)
        = ({ s with pendingChunks := s.pendingChunks ++ ts }, []) := by
  induction ts with
  | nil => intro s _ _; simp [run]
  | cons t ts ih =>
    intro s ha hr
    have hstep : step s (PEvent.feed t)
        = ({ s with pendingChunks := s.pendingChunks ++ [t] }, []) := by
      simp [step, ha, hr]
    simp only [List.map_cons, run, hstep]
    rw [ih { s with pendingChunks := s.pendingChunks ++ [t] } ha hr]
    simp

/-- C5: texts fed before the transport is ready are appended to the pending
buffer in call order without any send, and the ready (open) signal sends BOS
followed by every buffered text in that same order, then clears the buffer. -/
theorem feed_buffered_then_flushed_in_order (s : PState) (ts : List String) :
    s.aborted = false → s.wsReady = false →
      run s (ts.map PEvent.feed)
          = ({ s with pendingChunks := s.pendingChunks ++ ts }, [])
        ∧ (step { s with pendingChunks := s.pendingChunks ++ ts }
              PEvent.opened).2
            = Eff.bos :: (s.pendingChunks ++ ts).map Eff.text
                ++ (if s.deferredEos then [Eff.eos] else [])
        ∧ (step { s with pendingChunks := s.pendingChunks ++ ts }
              PEvent.opened).1.pendingChunks = [] := by
  intro ha hr
  exact ⟨run_feeds ts s ha hr, by simp [step, ha], by simp [step, ha]⟩

/-- Witness for C5: two texts fed before readiness are buffered, then sent
in order after BOS when the socket opens. -/
theorem feed_buffered_then_flushed_in_order_witness :
    run initState (["a", "b"].map PEvent.feed)
        = ({ initState with pendingChunks := ["a", "b"] }, [])
      ∧ (step { initState with pendingChunks := ["a", "b"] }
            PEvent.opened).2
          = [Eff.bos, Eff.text "a", Eff.text "b"] := by
  have h := feed_buffered_then_flushed_in_order initState ["a", "b"] rfl rfl
  exact ⟨h.1, by simpa [initState] using h.2.1⟩

/-- C9 (implicit): the close handler does not consult the aborted flag, so
if `abort()` runs while a partial frame sits in the leftover buffer and the
socket then emits `close`, that partial frame is still delivered to the
media collaborator: abort leaves `audioLeftover` untouched and the
subsequent close emits exactly the leftover `sendAudio` call. -/
theorem leftover_delivered_after_abort (s : PState) :
    s.aborted = false → s.audioLeftover ≠ [] →
      (step s PEvent.abortEv).1.audioLeftover = s.audioLeftover
        ∧ (step (step s PEvent.abortEv).1 PEvent.close).2
            = [Eff.audio s.audioLeftover] := by
  intro ha hl
  have hstep : (step s PEvent.abortEv).1
      = { s with aborted := true, pendingChunks := []
                 wsPresent := false, wsOpen := false
                 completionResolved := true } := by
    simp [step, ha, resolveStep]
  have hpos : 0 < s.audioLeftover.length := List.length_pos.mpr hl
  refine ⟨by rw [hstep], ?_⟩
  rw [hstep]
  simp [step, sendRemainingAudio, resolveStep, hpos]

/-- Witness for C9: a two-byte leftover survives the abort and is flushed
by the close event. -/
theorem leftover_delivered_after_abort_witness :
    (step (step { initState with audioLeftover := [1, 2] }
        PEvent.abortEv).1 PEvent.close).2 = [Eff.audio [1, 2]] :=
  (leftover_delivered_after_abort { initState with audioLeftover := [1, 2] }
    rfl (by decide)).2

/-- C10 (implicit): `flush()` does not disable text input: on a non-aborted,
already-flushed relay, `feedTokens` still buffers the text when the
transport is not ready, and still sends it when it is. -/
theorem feed_after_flush_not_noop (s : PState) (t : String) :
    s.aborted = false → s.flushed = true →
      (s.wsReady = false →
          step s (PEvent.feed t)
            = ({ s with pendingChunks := s.pendingChunks ++ [t] }, []))
        ∧ (s.wsReady = true →
          step s (PEvent.feed t)
            = (s, if s.wsPresent && s.wsOpen then [Eff.text t] else [])) := by
  intro ha _
  constructor
  · intro hr
    simp [step, ha, hr]
  · intro hr
    simp [step, ha, hr, sendTextEffs]

/-- Witness for C10: after `flush()` before readiness, a fed text is still
buffered; after flush on an open, ready socket, it is still sent. -/
theorem feed_after_flush_not_noop_witness :
    step { initState with flushed := true } (PEvent.feed "x")
        = ({ initState with flushed := true, pendingChunks := ["x"] }, [])
      ∧ step { initState with flushed := true, wsReady := true, wsOpen := true }
            (PEvent.feed "x")
        = ({ initState with flushed := true, wsReady := true, wsOpen := true },
           [Eff.text "x"]) := by
  refine ⟨?_, ?_⟩
  · have h := (feed_after_flush_not_noop
      { initState with flushed := true } "x" rfl rfl).1 rfl
    simpa [initState] using h
  · have h := (feed_after_flush_not_noop
      { initState with flushed := true, wsReady := true, wsOpen := true }
      "x" rfl rfl).2 rfl
    simpa [initState] using h

/-! ### At most one EOS per instance -/

/-- Upper bound on future EOS sends from a state, given `k` remaining
`opened` events: an unflushed instance can still send one (directly or via
the deferred listener); a flushed instance sends one per `opened` event iff
the deferred listener is armed. -/
def eosCap (s : PState) (k : Nat) : Nat :=
  if s.flushed then (if s.deferredEos then k else 0)
  else (if k = 0 then 1 else k)

theorem eosCap_mono (s : PState) {k1 k2 : Nat} (h : k1 ≤ k2) :
    eosCap s k1 ≤ eosCap s k2 := by
  unfold eosCap
  split_ifs <;> omega

theorem step_df (s : PState) (e : PEvent)
    (hdf : s.deferredEos = true → s.flushed = true) :
    (step s e).1.deferredEos = true → (step s e).1.flushed = true := by
  obtain ⟨ab, fl, wr, wp, wo, de, pc, al, cr⟩ := s
  cases e with
  | opened => cases ab <;> simp_all [step]
  | msg m =>
    obtain ⟨ma, mf⟩ := m
    cases ab <;> cases mf <;> cases ma <;>
      simp_all [step, resolveStep, sendRemainingAudio] <;>
      split <;> simp_all
  | err => simp_all [step, resolveStep]
  | close =>
    simp_all [step, resolveStep, sendRemainingAudio]
    split <;> simp_all
  | feed t => cases ab <;> cases wr <;> simp_all [step]
  | flushEv =>
    cases ab <;> cases fl <;> cases wr <;> cases wp <;>
      simp_all [step]
  | abortEv => cases ab <;> simp_all [step, resolveStep]

@[simp] theorem eosCount_nil : eosCount [] = 0 := rfl

@[simp] theorem eosCount_cons (e : Eff) (l : List Eff) :
    eosCount (e :: l) = (if e = Eff.eos then 1 else 0) + eosCount l := by
  cases e <;> simp [eosCount, List.countP_cons] <;> omega

@[simp] theorem eosCount_append (a b : List Eff) :
    eosCount (a ++ b) = eosCount a + eosCount b := by
  simp [eosCount, List.countP_append]

@[simp] theorem eosCount_map_text (pc : List String) :
    eosCount (pc.map Eff.text) = 0 := by
  induction pc with
  | nil => rfl
  | cons a pc ih => simp [ih]

@[simp] theorem eosCount_map_audio (l : List (List Nat)) :
    eosCount (l.map Eff.audio) = 0 := by
  induction l with
  | nil => rfl
  | cons a l ih => simp [ih]

set_option maxHeartbeats 1000000 in
theorem eos_step_bound (s : PState) (e : PEvent)
    (hdf : s.deferredEos = true → s.flushed = true) (k : Nat) :
    eosCount (step s e).2 + eosCap (step s e).1 k
      ≤ eosCap s (k + openCount [e]) := by
  obtain ⟨ab, fl, wr, wp, wo, de, pc, al, cr⟩ := s
  cases e with
  | opened =>
    cases ab <;> cases fl <;> cases de <;> cases wp <;>
      simp_all [step, eosCap, openCount, List.countP_cons] <;>
      (try split_ifs) <;> omega
  | msg m =>
    obtain ⟨ma, mf⟩ := m
    cases ab <;> cases mf <;> cases ma <;> cases fl <;> cases de <;>
      cases cr <;>
      simp_all [step, resolveStep, sendRemainingAudio, eosCap,
        openCount, List.countP_cons] <;>
      (try split) <;> simp_all
  | err =>
    cases fl <;> cases de <;> cases cr <;>
      simp_all [step, resolveStep, eosCap, openCount, List.countP_cons]
  | close =>
    cases fl <;> cases de <;> cases cr <;>
      simp_all [step, resolveStep, sendRemainingAudio, eosCap,
        openCount, List.countP_cons] <;>
      split <;> simp_all
  | feed t =>
    cases ab <;> cases wr <;> cases fl <;> cases de <;> cases wp <;>
      cases wo <;>
      simp_all [step, sendTextEffs, eosCap, openCount, List.countP_cons]
  | flushEv =>
    cases ab <;> cases fl <;> cases wr <;> cases wp <;> cases wo <;>
      cases de <;>
      simp_all [step, sendEosEffs, eosCap, openCount, List.countP_cons] <;>
      (try split_ifs) <;> omega
  | abortEv =>
    cases ab <;> cases fl <;> cases de <;> cases cr <;>
      simp_all [step, resolveStep, eosCap, openCount, List.countP_cons] <;>
      split <;> simp

theorem eos_run_bound (evs : List PEvent) : ∀ s : PState,
    (s.deferredEos = true → s.flushed = true) →
      eosCount (run s evs).2 ≤ eosCap s (openCount evs) := by
  induction evs with
  | nil =>
    intro s _
    simp only [run, eosCount_nil]
    exact Nat.zero_le _
  | cons e evs ih =>
    intro s hdf
    have hcnt : eosCount (run s (e :: evs)).2
        = eosCount (step s e).2 + eosCount (run (step s e).1 evs).2 := by
      simp [run]
    have h1 := ih (step s e).1 (step_df s e hdf)
    have h2 := eos_step_bound s e hdf (openCount evs)
    have hop : openCount (e :: evs) = openCount evs + openCount [e] := by
      simp [openCount, List.countP_cons]
    rw [hcnt, hop]
    calc eosCount (step s e).2 + eosCount (run (step s e).1 evs).2
        ≤ eosCount (step s e).2 + eosCap (step s e).1 (openCount evs) :=
          Nat.add_le_add_left h1 _
      _ ≤ eosCap s (openCount evs + openCount [e]) := h2

/-- C6: on a non-aborted, not-yet-flushed relay, `flush()` marks the stream
flushed immediately and sends EOS at once when the transport is ready (and
open), or defers the send to the ready signal otherwise; any later `flush()`
is a no-op, and any event history of a fresh instance whose transport opens
at most once sends at most one EOS message. -/
theorem flush_once_eos (s : PState) (evs : List PEvent) :
    (s.aborted = false → s.flushed = false →
        (step s PEvent.flushEv).1.flushed = true
      ∧ (s.wsReady = true →
          (step s PEvent.flushEv).2
            = if s.wsPresent && s.wsOpen then [Eff.eos] else [])
      ∧ (s.wsReady = false →
          (step s PEvent.flushEv).2 = []
          ∧ (s.wsPresent = true →
              (step s PEvent.flushEv).1.deferredEos = true
              ∧ Eff.eos ∈ (step (step s PEvent.flushEv).1 PEvent.opened).2)))
    ∧ (s.flushed = true → step s PEvent.flushEv = (s, []))
    ∧ (openCount evs ≤ 1 → eosCount (run initState evs).2 ≤ 1) := by
  refine ⟨?_, ?_, ?_⟩
  · intro ha hf
    refine ⟨by simp [step, ha, hf]; split_ifs <;> rfl, ?_, ?_⟩
    · intro hr
      simp [step, ha, hf, hr, sendEosEffs]
    · intro hr
      by_cases hp : s.wsPresent
      · exact ⟨by simp [step, ha, hf, hr, hp],
          fun _ => ⟨by simp [step, ha, hf, hr, hp],
                    by simp [step, ha, hf, hr, hp]⟩⟩
      · simp only [Bool.not_eq_true] at hp
        exact ⟨by simp [step, ha, hf, hr, hp],
          fun hp' => absurd (hp'.symm.trans hp) (by simp)⟩
  · intro hf
    simp [step, hf]
  · intro hop
    have h := eos_run_bound evs initState (by intro h; simpa [initState] using h)
    refine Nat.le_trans h ?_
    have : eosCap initState (openCount evs) ≤ 1 := by
      unfold eosCap initState
      simp only
      split_ifs <;> omega
    exact this

/-- Witness for C6: flushing an unready fresh instance marks it flushed,
the deferred EOS goes out on open, and the whole history sends one EOS. -/
theorem flush_once_eos_witness :
    (step initState PEvent.flushEv).1.flushed = true
    ∧ Eff.eos ∈ (step (step initState PEvent.flushEv).1 PEvent.opened).2
    ∧ eosCount (run initState [PEvent.flushEv, PEvent.opened]).2 ≤ 1 := by
  have h := flush_once_eos initState [PEvent.flushEv, PEvent.opened]
  exact ⟨(h.1 rfl rfl).1, (((h.1 rfl rfl).2.2 rfl).2 rfl).2,
    h.2.2 (by decide)⟩

/-! ### Completion resolves exactly once -/

@[simp] theorem resolvedCount_nil : resolvedCount [] = 0 := rfl

@[simp] theorem resolvedCount_cons (e : Eff) (l : List Eff) :
    resolvedCount (e :: l)
      = (if e = Eff.resolved then 1 else 0) + resolvedCount l := by
  cases e <;> simp [resolvedCount, List.countP_cons] <;> omega

@[simp] theorem resolvedCount_append (a b : List Eff) :
    resolvedCount (a ++ b) = resolvedCount a + resolvedCount b := by
  simp [resolvedCount, List.countP_append]

@[simp] theorem resolvedCount_map_text (pc : List String) :
    resolvedCount (pc.map Eff.text) = 0 := by
  induction pc with
  | nil => rfl
  | cons a pc ih => simp [ih]

@[simp] theorem resolvedCount_map_audio (l : List (List Nat)) :
    resolvedCount (l.map Eff.audio) = 0 := by
  induction l with
  | nil => rfl
  | cons a l ih => simp [ih]

set_option maxHeartbeats 1000000 in
theorem resolved_step_bound (s : PState) (e : PEvent) :
    resolvedCount (step s e).2
        + (if (step s e).1.completionResolved = true then 0 else 1)
      ≤ (if s.completionResolved = true then 0 else 1) := by
  obtain ⟨ab, fl, wr, wp, wo, de, pc, al, cr⟩ := s
  cases e with
  | opened => cases ab <;> cases cr <;> simp_all [step] <;> split <;> simp
  | msg m =>
    obtain ⟨ma, mf⟩ := m
    cases ab <;> cases mf <;> cases ma <;> cases cr <;>
      simp_all [step, resolveStep, sendRemainingAudio] <;>
      (try split) <;> simp_all
  | err => cases cr <;> simp_all [step, resolveStep]
  | close =>
    cases cr <;> simp_all [step, resolveStep, sendRemainingAudio] <;>
      split <;> simp_all
  | feed t =>
    cases ab <;> cases wr <;> cases cr <;>
      simp_all [step, sendTextEffs] <;> split <;> simp
  | flushEv =>
    cases ab <;> cases fl <;> cases wr <;> cases wp <;> cases wo <;>
      cases cr <;> simp_all [step, sendEosEffs]
  | abortEv =>
    cases ab <;> cases cr <;> simp_all [step, resolveStep] <;>
      split <;> simp

theorem resolved_run_bound (evs : List PEvent) : ∀ s : PState,
    resolvedCount (run s evs).2
      ≤ (if s.completionResolved = true then 0 else 1) := by
  induction evs with
  | nil =>
    intro s
    simp only [run, resolvedCount_nil]
    exact Nat.zero_le _
  | cons e evs ih =>
    intro s
    have hcnt : resolvedCount (run s (e :: evs)).2
        = resolvedCount (step s e).2
            + resolvedCount (run (step s e).1 evs).2 := by
      simp [run]
    rw [hcnt]
    calc resolvedCount (step s e).2 + resolvedCount (run (step s e).1 evs).2
        ≤ resolvedCount (step s e).2
            + (if (step s e).1.completionResolved = true then 0 else 1) :=
          Nat.add_le_add_left (ih (step s e).1) _
      _ ≤ (if s.completionResolved = true then 0 else 1) :=
          resolved_step_bound s e

/-- C7: the completion promise is resolved on every terminating path — the
transport's final-signal (on a non-aborted relay), a transport error, and a
transport close — and over any event history of a fresh instance it resolves
at most once; a transport error only resolves completion, with no other
state change or effect (in particular no reconnect). -/
theorem completion_resolved_once (s : PState) (evs : List PEvent) :
    (s.aborted = false →
        (step s finalMsg).1.completionResolved = true)
    ∧ (step s PEvent.err).1.completionResolved = true
    ∧ (step s PEvent.close).1.completionResolved = true
    ∧ step s PEvent.err
        = ({ s with completionResolved := true },
           if s.completionResolved then [] else [Eff.resolved])
    ∧ resolvedCount (run initState evs).2 ≤ 1 := by
  refine ⟨?_, ?_, ?_, ?_, ?_⟩
  · intro ha
    simp [step, finalMsg, ha, resolveStep, sendRemainingAudio]
  · simp [step, resolveStep, sendRemainingAudio]
  · simp [step, resolveStep, sendRemainingAudio]
  · simp [step, resolveStep]
  · have h := resolved_run_bound evs initState
    simpa [initState] using h

/-- Witness for C7: a fresh relay hit by final-signal, error and close
resolves completion and does so exactly once across the whole history. -/
theorem completion_resolved_once_witness :
    (step initState finalMsg).1.completionResolved = true
    ∧ resolvedCount
        (run initState [finalMsg, PEvent.err, PEvent.close]).2 ≤ 1 :=
  ⟨(completion_resolved_once initState []).1 rfl,
   (completion_resolved_once initState
      [finalMsg, PEvent.err, PEvent.close]).2.2.2.2⟩

/-! ### Call manager: initial message on answered -/

/-- The value found at `call.metadata?.initialMessage`: absent (no metadata
or no such key), a string, or a non-string value. -/
inductive MetaVal where
  | absent
  | str (s : String)
  | nonString
deriving DecidableEq

/-- The fields of a call record read by the answered hook. -/
structure AnswerCall where
  providerCallId : Option String
  initialMessageMeta : MetaVal
deriving DecidableEq

/-- The provider as seen by the hook: only its name is consulted. -/
structure ProviderInfo where
  name : String
deriving DecidableEq

/-- Model of `typeof call.metadata?.initialMessage === "string" ? ….trim() : ""`. -/
def initialMessageOf (c : AnswerCall) : String :=
  match c.initialMessageMeta with
  | MetaVal.str s => s.trim
  | _ => ""

/-- Model of `CallManager.maybeSpeakInitialMessageOnAnswered`: returns the provider
call id for which `speakInitialMessage` is started, or `none` when the hook
is a no-op. -/
def maybeSpeakInitialMessageOnAnswered (provider : Option ProviderInfo)
    (c : AnswerCall) : Option String :=
  let initialMessage := initialMessageOf c
  if initialMessage = "" then none
  else
    match provider, c.providerCallId with
    | none, _ => none
    | _, none => none
    | some p, some pcid =>
      if p.name = "twilio" then none else some pcid

/-- C8: the answered hook starts speaking the queued initial message exactly
when the metadata holds a string whose trim is non-empty, a provider is set,
the call has a provider call id, and the provider is not "twilio"; for a
twilio provider or an empty/missing initial message it is a no-op. -/
theorem answered_hook_conditions (provider : Option ProviderInfo)
    (c : AnswerCall) :
    (maybeSpeakInitialMessageOnAnswered provider c ≠ none
        ↔ initialMessageOf c ≠ ""
          ∧ (∃ p, provider = some p ∧ p.name ≠ "twilio")
          ∧ c.providerCallId ≠ none)
    ∧ (∀ p, provider = some p → p.name = "twilio" →
        maybeSpeakInitialMessageOnAnswered provider c = none)
    ∧ (initialMessageOf c = "" →
        maybeSpeakInitialMessageOnAnswered provider c = none)
    ∧ (∀ pcid, maybeSpeakInitialMessageOnAnswered provider c = some pcid →
        c.providerCallId = some pcid) := by
  unfold maybeSpeakInitialMessageOnAnswered
  by_cases hm : initialMessageOf c = ""
  · simp [hm]
  · cases provider with
    | none => simp [hm]
    | some p =>
      cases hc : c.providerCallId with
      | none => simp [hm, hc]
      | some pcid =>
        by_cases ht : p.name = "twilio"
        · simp [hm, hc, ht]
        · simp [hm, hc, ht]

/-- Witness for C8: the hook is a no-op for a twilio provider even with a
valid message and call id, and for a call without an initial message. -/
theorem answered_hook_conditions_witness :
    maybeSpeakInitialMessageOnAnswered (some ⟨"twilio"⟩)
        ⟨some "pc1", MetaVal.str "hi"⟩ = none
    ∧ maybeSpeakInitialMessageOnAnswered (some ⟨"telnyx"⟩)
        ⟨some "pc1", MetaVal.absent⟩ = none :=
  ⟨(answered_hook_conditions (some ⟨"twilio"⟩)
      ⟨some "pc1", MetaVal.str "hi"⟩).2.1 ⟨"twilio"⟩ rfl rfl,
   (answered_hook_conditions (some ⟨"telnyx"⟩)
      ⟨some "pc1", MetaVal.absent⟩).2.2.1 rfl⟩

/-! ### Event processor (modelled from the spec) -/

/-- Call lifecycle states of the state machine in §4.1 of the spec. -/
inductive CallStatus where
  | initiated
  | ringing
  | dialing
  | answered
  | ended
deriving DecidableEq

/-- End reasons of the terminal state. -/
inductive EndReason where
  | callerHangup
  | providerError
  | maxDuration
  | manual
  | rejected
deriving DecidableEq

/-- The call-record fields the event processor transitions. -/
structure CallRec where
  callId : Nat
  providerCallId : Option String
  status : CallStatus
  endReason : Option EndReason
deriving DecidableEq

/-- Normalized event kinds. -/
inductive EventKind where
  | answered
  | ended
  | mediaReady
  | transcriptChunk
  | error
  | unknown
deriving DecidableEq

/-- Provider-agnostic event envelope. -/
structure NEvent where
  eventId : String
  providerCallId : String
  kind : EventKind
deriving DecidableEq

/-- Lifecycle hooks the processor may invoke. -/
inductive Hook where
  | onCallAnswered (callId : Nat)
  | onCallEnded (callId : Nat)
  | onTranscriptEntry (callId : Nat)
deriving DecidableEq

/-- The runtime maps the processor mutates. -/
structure MgrState where
  activeCalls : List (Nat × CallRec)
  providerCallIdMap : List (String × Nat)
  processedEventIds : List String
  nextCallId : Nat
deriving DecidableEq

/-- First-match association lookup on `activeCalls`. -/
def lookupId : List (Nat × CallRec) → Nat → Option CallRec
  | [], _ => none
  | (k, v) :: l, cid => if k = cid then some v else lookupId l cid

/-- First-match association lookup on `providerCallIdMap`. -/
def lookupPcid : List (String × Nat) → String → Option Nat
  | [], _ => none
  | (k, v) :: l, pcid => if k = pcid then some v else lookupPcid l pcid

/-- Replace the record stored for a call id. -/
def updateCall (l : List (Nat × CallRec)) (cid : Nat) (v : CallRec) :
    List (Nat × CallRec) :=
  l.map fun p => if p.1 = cid then (cid, v) else p

/-- Modelled from the spec: the state transition implied by an event kind
(§4.1) for `manager/events.ts`, which is not among the verified sources.
`ended` is terminal: any event on an ended record is a no-op; `answered`
fires its hook only on the transition into the state; `ended`/`error` move
to `ended` with the corresponding reason; transcript chunks fire the
transcript hook; unknown kinds are dropped. -/
def applyKind (r : CallRec) : EventKind → CallRec × List Hook
  | k =>
    if r.status = CallStatus.ended then (r, [])
    else
      match k with
      | EventKind.answered =>
        if r.status = CallStatus.answered then (r, [])
        else ({ r with status := CallStatus.answered },
              [Hook.onCallAnswered r.callId])
      | EventKind.ended =>
        ({ r with status := CallStatus.ended
                  endReason := some EndReason.callerHangup },
         [Hook.onCallEnded r.callId])
      | EventKind.error =>
        ({ r with status := CallStatus.ended
                  endReason := some EndReason.providerError },
         [Hook.onCallEnded r.callId])
      | EventKind.transcriptChunk => (r, [Hook.onTranscriptEntry r.callId])
      | EventKind.mediaReady => (r, [])
      | EventKind.unknown => (r, [])

/-- Modelled from the spec: `processEvent(context, event)` (§4.2) for
`manager/events.ts`, which is not among the verified sources.  Idempotent
via the dedup set; otherwise records the event id, resolves the call via
the provider-id map (creating a fresh inbound record at `ringing` when
unknown), applies the transition and returns the hooks to invoke. -/
def processEvent (st : MgrState) (e : NEvent) : MgrState × List Hook :=
  if e.eventId ∈ st.processedEventIds then (st, [])
  else
    let st1 := { st with processedEventIds := e.eventId :: st.processedEventIds }
    match lookupPcid st1.providerCallIdMap e.providerCallId with
    | some cid =>
      match lookupId st1.activeCalls cid with
      | some r =>
        let rh := applyKind r e.kind
        ({ st1 with activeCalls := updateCall st1.activeCalls cid rh.1 },
         rh.2)
      | none => (st1, [])
    | none =>
      let cid := st1.nextCallId
      let r0 : CallRec :=
        ⟨cid, some e.providerCallId, CallStatus.ringing, none⟩
      let rh := applyKind r0 e.kind
      ({ st1 with
          nextCallId := cid + 1
          activeCalls := (cid, rh.1) :: st1.activeCalls
          providerCallIdMap := (e.providerCallId, cid) :: st1.providerCallIdMap },
       rh.2)

/-- Modelled from the spec: outcome of `endCall` (§4.3) for
`manager/outbound.ts`, which is not among the verified sources: the new
state, the reported success, whether the provider was asked to hang up,
and the hooks fired. -/
structure EndCallOutcome where
  state : MgrState
  success : Bool
  hangupCalled : Bool
  hooks : List Hook
deriving DecidableEq

/-- Modelled from the spec: `endCall(callId)` (§4.3) for
`manager/outbound.ts`, which is not among the verified sources.
Idempotent: an already-`ended` call reports success without provider
contact or state change; otherwise the provider is asked to hang up and
the record transitions to `ended` with `endReason = manual`, firing
`onCallEnded` (§4.1); an unknown call id is a structured failure with no
state change (§7). -/
def endCall (st : MgrState) (cid : Nat) : EndCallOutcome :=
  match lookupId st.activeCalls cid with
  | none => ⟨st, false, false, []⟩
  | some r =>
    if r.status = CallStatus.ended then ⟨st, true, false, []⟩
    else
      let r1 : CallRec :=
        { r with status := CallStatus.ended
                 endReason := some EndReason.manual }
      ⟨{ st with activeCalls := updateCall st.activeCalls cid r1 },
       true, true, [Hook.onCallEnded r.callId]⟩

/-- Modelled from the spec: `speak(callId, text)` (§4.3) for
`manager/outbound.ts`, which is not among the verified sources: it fails
when the call is missing, not in `answered` state, or already has an
active turn, and performs no status transition in any case — on success
it only drives the audio relay; `activeTurn` is the `activeTurnCalls`
set. -/
def speak (st : MgrState) (activeTurn : List Nat) (cid : Nat) :
    MgrState × Bool :=
  match lookupId st.activeCalls cid with
  | none => (st, false)
  | some r =>
    if r.status ≠ CallStatus.answered then (st, false)
    else if cid ∈ activeTurn then (st, false)
    else (st, true)

/-- Modelled from the spec: `continueCall(callId, prompt)` (§4.3) for
`manager/outbound.ts`, which is not among the verified sources: it
composes `speak` and then registers a transcript waiter; waiters are
transient state outside the call records and never touch `status`, so on
the modelled state the operation acts exactly as its `speak` step. -/
def continueCall (st : MgrState) (activeTurn : List Nat) (cid : Nat) :
    MgrState × Bool :=
  speak st activeTurn cid

/-- Modelled from the spec: `initiateCall(to, ...)` (§4.3) for
`manager/outbound.ts`, which is not among the verified sources: it
allocates a fresh `CallId` and creates a record in `initiated` state,
touching no existing record. -/
def initiateCall (st : MgrState) (_to : String) : MgrState × Nat :=
  let cid := st.nextCallId
  let r : CallRec := ⟨cid, none, CallStatus.initiated, none⟩
  ({ st with nextCallId := cid + 1
             activeCalls := (cid, r) :: st.activeCalls },
   cid)

theorem processEvent_dup (st : MgrState) (e : NEvent)
    (h : e.eventId ∈ st.processedEventIds) : processEvent st e = (st, []) := by
  simp [processEvent, h]

theorem processEvent_records_id (st : MgrState) (e : NEvent) :
    e.eventId ∈ (processEvent st e).1.processedEventIds := by
  by_cases h : e.eventId ∈ st.processedEventIds
  · rw [processEvent_dup st e h]
    exact h
  · simp only [processEvent, if_neg h]
    split <;> (try split) <;> simp

/-- C2: event processing is idempotent in the event id: an event whose id is
in the dedup set leaves the state unchanged and fires no hook, and
redelivering any event right after it was processed is a no-op. -/
theorem processEvent_idempotent (st : MgrState) (e : NEvent) :
    (e.eventId ∈ st.processedEventIds → processEvent st e = (st, []))
    ∧ processEvent (processEvent st e).1 e = ((processEvent st e).1, []) :=
  ⟨processEvent_dup st e,
   processEvent_dup (processEvent st e).1 e (processEvent_records_id st e)⟩

/-- Witness for C2: a duplicate event id is dropped without touching state. -/
theorem processEvent_idempotent_witness :
    processEvent ⟨[], [], ["e1"], 0⟩ ⟨"e1", "p", EventKind.answered⟩
      = (⟨[], [], ["e1"], 0⟩, []) :=
  (processEvent_idempotent ⟨[], [], ["e1"], 0⟩
    ⟨"e1", "p", EventKind.answered⟩).1 (by simp)

/-- Rank of a status along the §4.1 state machine. -/
def statusRank : CallStatus → Nat
  | CallStatus.initiated => 0
  | CallStatus.ringing => 1
  | CallStatus.dialing => 1
  | CallStatus.answered => 2
  | CallStatus.ended => 3


theorem lookupId_cons (k0 : Nat) (w : CallRec) (l : List (Nat × CallRec))
    (cid : Nat) :
    lookupId ((k0, w) :: l) cid
      = if k0 = cid then some w else lookupId l cid := rfl

theorem updateCall_cons (k0 : Nat) (w : CallRec) (l : List (Nat × CallRec))
    (cid : Nat) (v : CallRec) :
    updateCall ((k0, w) :: l) cid v
      = (if k0 = cid then (cid, v) else (k0, w)) :: updateCall l cid v := rfl

theorem lookupId_updateCall_ne (cid' cid : Nat) (v : CallRec)
    (h : cid' ≠ cid) :
    ∀ l, lookupId (updateCall l cid' v) cid = lookupId l cid := by
  intro l
  induction l with
  | nil => rfl
  | cons p l ih =>
    obtain ⟨k0, w⟩ := p
    rw [updateCall_cons]
    by_cases hk : k0 = cid'
    · rw [if_pos hk, lookupId_cons, lookupId_cons, if_neg h,
        if_neg (fun hc => h (hk.symm.trans hc))]
      exact ih
    · rw [if_neg hk, lookupId_cons, lookupId_cons]
      by_cases hc : k0 = cid
      · rw [if_pos hc, if_pos hc]
      · rw [if_neg hc, if_neg hc]
        exact ih

theorem lookupId_updateCall_self (cid : Nat) (v : CallRec) :
    ∀ l, (∃ r, lookupId l cid = some r) →
      lookupId (updateCall l cid v) cid = some v := by
  intro l
  induction l with
  | nil => rintro ⟨r, hr⟩; simp [lookupId] at hr
  | cons p l ih =>
    obtain ⟨k0, w⟩ := p
    rintro ⟨r, hr⟩
    rw [lookupId_cons] at hr
    rw [updateCall_cons]
    by_cases hk : k0 = cid
    · rw [if_pos hk, lookupId_cons, if_pos rfl]
    · rw [if_neg hk] at hr
      rw [if_neg hk, lookupId_cons, if_neg hk]
      exact ih ⟨r, hr⟩

/-- C3: `ended` is terminal and status moves only forward, for events and
operations alike: an event on an ended record is a no-op with no hook,
every event transition is monotone in the state-machine rank, a record
already `ended` is untouched by any further processed event (given the
manager never reuses the next fresh call id), `endCall` on an ended call
reports success without provider contact, hooks or state change, `speak`
and `continueCall` on an ended call fail without state change, and
`initiateCall` only adds a fresh record, leaving existing ones intact. -/
theorem ended_terminal_monotone :
    (∀ (r : CallRec) (k : EventKind),
        r.status = CallStatus.ended → applyKind r k = (r, []))
    ∧ (∀ (r : CallRec) (k : EventKind),
        statusRank r.status ≤ statusRank (applyKind r k).1.status)
    ∧ (∀ (st : MgrState) (e : NEvent) (cid : Nat) (r : CallRec),
        lookupId st.activeCalls st.nextCallId = none →
        lookupId st.activeCalls cid = some r →
        r.status = CallStatus.ended →
        lookupId (processEvent st e).1.activeCalls cid = some r)
    ∧ (∀ (st : MgrState) (cid : Nat) (r : CallRec),
        lookupId st.activeCalls cid = some r →
        r.status = CallStatus.ended →
        endCall st cid = ⟨st, true, false, []⟩)
    ∧ (∀ (st : MgrState) (activeTurn : List Nat) (cid : Nat) (r : CallRec),
        lookupId st.activeCalls cid = some r →
        r.status = CallStatus.ended →
        speak st activeTurn cid = (st, false)
        ∧ continueCall st activeTurn cid = (st, false))
    ∧ (∀ (st : MgrState) (dest : String) (cid : Nat) (r : CallRec),
        lookupId st.activeCalls st.nextCallId = none →
        lookupId st.activeCalls cid = some r →
        lookupId (initiateCall st dest).1.activeCalls cid = some r) := by
  refine ⟨?_, ?_, ?_, ?_, ?_, ?_⟩
  · intro r k h
    simp [applyKind, h]
  · intro r k
    by_cases h : r.status = CallStatus.ended
    · simp [applyKind, h]
    · cases hs : r.status <;> cases k <;>
        simp_all [applyKind, statusRank]
  · intro st e cid r hfresh hr hend
    by_cases hdup : e.eventId ∈ st.processedEventIds
    · rw [processEvent_dup st e hdup]
      exact hr
    · have hne : st.nextCallId ≠ cid := by
        intro heq
        rw [heq, hr] at hfresh
        exact Option.noConfusion hfresh
      simp only [processEvent, if_neg hdup]
      cases hl : lookupPcid st.providerCallIdMap e.providerCallId with
      | none =>
        simp only
        rw [lookupId_cons, if_neg hne]
        exact hr
      | some cid0 =>
        cases hl2 : lookupId st.activeCalls cid0 with
        | none =>
          simp only [hl2]
          exact hr
        | some r0 =>
          simp only [hl2]
          by_cases hc : cid0 = cid
          · subst hc
            have hr0 : r0 = r := by
              rw [hl2] at hr
              exact Option.some.inj hr
            subst hr0
            have hstop : applyKind r0 e.kind = (r0, []) := by
              simp [applyKind, hend]
            simp only [hstop]
            exact lookupId_updateCall_self cid0 r0 st.activeCalls ⟨r0, hl2⟩
          · rw [lookupId_updateCall_ne cid0 cid _ hc st.activeCalls]
            exact hr
  · intro st cid r hr hend
    simp [endCall, hr, hend]
  · intro st activeTurn cid r hr hend
    constructor <;> simp [speak, continueCall, hr, hend]
  · intro st dest cid r hfresh hr
    have hne : st.nextCallId ≠ cid := by
      intro heq
      rw [heq, hr] at hfresh
      exact Option.noConfusion hfresh
    simp only [initiateCall]
    rw [lookupId_cons, if_neg hne]
    exact hr

/-- Witness for C3: an `answered` event on an already-ended call changes
nothing about the record, and `endCall` / `speak` on that call leave the
state untouched (success without hangup, and failure, respectively). -/
theorem ended_terminal_monotone_witness :
    applyKind ⟨0, some "p", CallStatus.ended, some EndReason.manual⟩
        EventKind.answered
      = (⟨0, some "p", CallStatus.ended, some EndReason.manual⟩, [])
    ∧ lookupId (processEvent
        ⟨[(0, ⟨0, some "p", CallStatus.ended, some EndReason.manual⟩)],
         [("p", 0)], [], 1⟩
        ⟨"e1", "p", EventKind.answered⟩).1.activeCalls 0
      = some ⟨0, some "p", CallStatus.ended, some EndReason.manual⟩
    ∧ endCall
        ⟨[(0, ⟨0, some "p", CallStatus.ended, some EndReason.manual⟩)],
         [("p", 0)], [], 1⟩ 0
      = ⟨⟨[(0, ⟨0, some "p", CallStatus.ended, some EndReason.manual⟩)],
          [("p", 0)], [], 1⟩, true, false, []⟩
    ∧ speak
        ⟨[(0, ⟨0, some "p", CallStatus.ended, some EndReason.manual⟩)],
         [("p", 0)], [], 1⟩ [] 0
      = (⟨[(0, ⟨0, some "p", CallStatus.ended, some EndReason.manual⟩)],
          [("p", 0)], [], 1⟩, false) :=
  ⟨ended_terminal_monotone.1 _ EventKind.answered rfl,
   ended_terminal_monotone.2.2.1
     ⟨[(0, ⟨0, some "p", CallStatus.ended, some EndReason.manual⟩)],
      [("p", 0)], [], 1⟩
     ⟨"e1", "p", EventKind.answered⟩ 0 _ (by simp [lookupId]) rfl rfl,
   ended_terminal_monotone.2.2.2.1
     ⟨[(0, ⟨0, some "p", CallStatus.ended, some EndReason.manual⟩)],
      [("p", 0)], [], 1⟩ 0 _ rfl rfl,
   (ended_terminal_monotone.2.2.2.2.1
     ⟨[(0, ⟨0, some "p", CallStatus.ended, some EndReason.manual⟩)],
      [("p", 0)], [], 1⟩ [] 0 _ rfl rfl).1⟩
